import Mathlib

/-!
# Verification of the replitFront in-memory trading store and API routes

Shallow embedding of the parts of the repository relevant to the frozen
claims:

* `src/shared/schema.ts` — entity shapes and the Zod insert schemas
  derived from them by drizzle-zod (`text` → string, `integer` → number,
  `numeric` → string, `boolean` → boolean, `jsonb` → any).
* `src/server/storage.ts` — `MemStorage`, the single in-memory store.
  JavaScript `Map`s are modelled as association lists in insertion order
  (`Map.set` overwrites in place, `Map.delete` removes the entry,
  iteration follows insertion order).  `Date` timestamps are modelled as
  an explicit `now : Nat` argument to every operation that stamps one.
* the Express route handlers and the WebSocket bootstrap handshake
  (`registerRoutes` / `sendInitialData` / the per-route handlers).
* the client-side numeric parsing in `TradingContext`
  (`parseOrderFields` and the positions mapping).

Numbers held in JavaScript `number` fields are modelled as `ℚ`; fields
typed as strings by the schema (the `numeric` SQL columns of orders)
stay `String`.
-/

/-- A JSON-ish JavaScript value, as received in request bodies and
WebSocket payloads.  Finite JS numbers are modelled as rationals. -/
inductive JVal where
  | jnull : JVal
  | jbool (b : Bool) : JVal
  | jnum (q : ℚ) : JVal
  | jstr (s : String) : JVal
  deriving DecidableEq, Repr

/-! ## JavaScript `Map` model: association lists in insertion order -/

/-- `Map.get k`: first (unique) binding of `k`. -/
def mapGet {K V : Type} [DecidableEq K] : List (K × V) → K → Option V
  | [], _ => none
  | (k', v') :: rest, k => if k' = k then some v' else mapGet rest k

/-- `Map.set k v`: overwrite the binding in place if the key exists,
otherwise append it (JS `Map` keeps insertion order on overwrite). -/
def mapSet {K V : Type} [DecidableEq K] : List (K × V) → K → V → List (K × V)
  | [], k, v => [(k, v)]
  | (k', v') :: rest, k, v =>
      if k' = k then (k, v) :: rest else (k', v') :: mapSet rest k v

/-- `Map.delete k`: remove the binding of `k` (first occurrence). -/
def mapDelete {K V : Type} [DecidableEq K] : List (K × V) → K → List (K × V)
  | [], _ => []
  | (k', v') :: rest, k => if k' = k then rest else (k', v') :: mapDelete rest k

/-- `Array.from(map.values())`: values in insertion order. -/
def mapValues {K V : Type} (m : List (K × V)) : List V := m.map Prod.snd

/-! ## Entity types (`src/shared/schema.ts`) -/

structure User where
  id : Nat
  username : String
  password : String
  deriving DecidableEq, Repr

structure InsertUser where
  username : String
  password : String
  deriving DecidableEq, Repr

structure Account where
  id : Nat
  name : String
  broker : String
  apiKey : String
  apiSecret : String
  accountNumber : Option String
  refreshToken : Option String
  percentToTrade : Option String
  active : Bool
  deriving DecidableEq, Repr

structure InsertAccount where
  name : String
  broker : String
  apiKey : String
  apiSecret : String
  accountNumber : Option String
  refreshToken : Option String
  percentToTrade : Option String
  active : Bool
  deriving DecidableEq, Repr

/-- An order row.  `accountId`/`quantity` are `integer` columns (JS
numbers), `price` is a `numeric` column (a string in the inferred TS
type and in the Zod insert schema). -/
structure Order where
  id : Nat
  accountId : ℚ
  symbol : String
  side : String
  quantity : ℚ
  price : String
  orderType : String
  timeInForce : String
  status : String
  createdAt : Nat
  deriving DecidableEq, Repr

structure InsertOrder where
  accountId : ℚ
  symbol : String
  side : String
  quantity : ℚ
  price : String
  orderType : String
  timeInForce : String
  status : String
  deriving DecidableEq, Repr

structure Position where
  id : Nat
  accountId : ℚ
  symbol : String
  quantity : ℚ
  avgPrice : String
  pnl : String
  deriving DecidableEq, Repr

structure InsertPosition where
  accountId : ℚ
  symbol : String
  quantity : ℚ
  avgPrice : String
  pnl : String
  deriving DecidableEq, Repr

structure Log where
  id : Nat
  timestamp : Nat
  level : String
  message : String
  deriving DecidableEq, Repr

structure InsertLog where
  level : String
  message : String
  deriving DecidableEq, Repr

structure Setting where
  id : Nat
  type : String
  data : JVal
  deriving DecidableEq, Repr

structure ServiceStatus where
  id : Nat
  name : String
  status : String
  details : Option String
  updatedAt : Nat
  deriving DecidableEq, Repr

structure ProgramState where
  id : Nat
  running : Bool
  updatedAt : Nat
  deriving DecidableEq, Repr

structure BandData where
  id : Nat
  premium : ℚ
  upperBand : ℚ
  lowerBand : ℚ
  timestamp : Nat
  deriving DecidableEq, Repr

structure InsertBandData where
  premium : ℚ
  upperBand : ℚ
  lowerBand : ℚ
  deriving DecidableEq, Repr

structure QuoteData where
  id : Nat
  symbol : String
  price : ℚ
  change : ℚ
  timestamp : Nat
  deriving DecidableEq, Repr

structure InsertQuoteData where
  symbol : String
  price : ℚ
  change : ℚ
  deriving DecidableEq, Repr

/-! ## `MemStorage` (`src/server/storage.ts`) -/

structure MemStorage where
  users : List (Nat × User)
  accounts : List (Nat × Account)
  orders : List (Nat × Order)
  positions : List (Nat × Position)
  logs : List Log
  settingsMap : List (String × Setting)
  serviceStatusMap : List (String × ServiceStatus)
  programStateValue : Option ProgramState
  bandDataHistory : List BandData
  quoteDataMap : List (String × List QuoteData)
  userId : Nat
  accountId : Nat
  orderId : Nat
  positionId : Nat
  logId : Nat
  settingId : Nat
  serviceStatusId : Nat
  programStateId : Nat
  bandDataId : Nat
  quoteDataId : Nat
  deriving DecidableEq, Repr

/-- The store with all collections empty and every id counter at 1 (the
state established by the constructor's field initialisers, before the
seeding helpers run). -/
def MemStorage.empty : MemStorage where
  users := []
  accounts := []
  orders := []
  positions := []
  logs := []
  settingsMap := []
  serviceStatusMap := []
  programStateValue := none
  bandDataHistory := []
  quoteDataMap := []
  userId := 1
  accountId := 1
  orderId := 1
  positionId := 1
  logId := 1
  settingId := 1
  serviceStatusId := 1
  programStateId := 1
  bandDataId := 1
  quoteDataId := 1

namespace MemStorage

/-- `createUser`. -/
def createUser (s : MemStorage) (u : InsertUser) : User × MemStorage :=
  let id := s.userId
  let user : User := ⟨id, u.username, u.password⟩
  (user, { s with users := mapSet s.users id user, userId := s.userId + 1 })

/-- `getAccounts`. -/
def getAccounts (s : MemStorage) : List Account := mapValues s.accounts

/-- `createAccount`. -/
def createAccount (s : MemStorage) (a : InsertAccount) : Account × MemStorage :=
  let id := s.accountId
  let newAccount : Account :=
    ⟨id, a.name, a.broker, a.apiKey, a.apiSecret, a.accountNumber,
      a.refreshToken, a.percentToTrade, a.active⟩
  (newAccount,
    { s with accounts := mapSet s.accounts id newAccount, accountId := s.accountId + 1 })

/-- `deleteAccount`. -/
def deleteAccount (s : MemStorage) (id : Nat) : Bool × MemStorage :=
  ((mapGet s.accounts id).isSome, { s with accounts := mapDelete s.accounts id })

/-- `createLog`: append, then `shift()` the oldest entry away when the
length exceeds 1000. -/
def createLog (s : MemStorage) (log : InsertLog) (now : Nat) : Log × MemStorage :=
  let newLog : Log := ⟨s.logId, now, log.level, log.message⟩
  let ls := s.logs ++ [newLog]
  let ls := if ls.length > 1000 then ls.tail else ls
  (newLog, { s with logs := ls, logId := s.logId + 1 })

/-- `getLogs`. -/
def getLogs (s : MemStorage) : List Log := s.logs

/-- `getOrders`. -/
def getOrders (s : MemStorage) : List Order := mapValues s.orders

/-- `createOrder`: assign the next id, store, then log the creation. -/
def createOrder (s : MemStorage) (o : InsertOrder) (now : Nat) : Order × MemStorage :=
  let id := s.orderId
  let newOrder : Order :=
    ⟨id, o.accountId, o.symbol, o.side, o.quantity, o.price,
      o.orderType, o.timeInForce, o.status, now⟩
  let s := { s with orders := mapSet s.orders id newOrder, orderId := s.orderId + 1 }
  let s := (s.createLog
    ⟨"Info", "New order created: " ++ o.side ++ " " ++ toString o.quantity
      ++ " " ++ o.symbol ++ " @ " ++ o.price⟩ now).2
  (newOrder, s)

/-- A partial order update (`Partial<InsertOrder>`); spread-merge
semantics. -/
structure OrderPatch where
  accountId : Option ℚ := none
  symbol : Option String := none
  side : Option String := none
  quantity : Option ℚ := none
  price : Option String := none
  orderType : Option String := none
  timeInForce : Option String := none
  status : Option String := none
  deriving DecidableEq, Repr

/-- `{ ...order, ...patch }`. -/
def mergeOrder (o : Order) (p : OrderPatch) : Order :=
  { o with
    accountId := p.accountId.getD o.accountId
    symbol := p.symbol.getD o.symbol
    side := p.side.getD o.side
    quantity := p.quantity.getD o.quantity
    price := p.price.getD o.price
    orderType := p.orderType.getD o.orderType
    timeInForce := p.timeInForce.getD o.timeInForce
    status := p.status.getD o.status }

/-- `updateOrder`: merge the patch when the id exists and log the new
status; `none` when the id is unknown. -/
def updateOrder (s : MemStorage) (id : Nat) (p : OrderPatch) (now : Nat) :
    Option Order × MemStorage :=
  match mapGet s.orders id with
  | none => (none, s)
  | some o =>
    let updated := mergeOrder o p
    let s := { s with orders := mapSet s.orders id updated }
    let s := (s.createLog
      ⟨"Info", "Order #" ++ toString id ++ " updated: " ++ updated.status⟩ now).2
    (some updated, s)

/-- `deleteOrder`: log the cancellation when the order exists, then
delete; returns whether it existed. -/
def deleteOrder (s : MemStorage) (id : Nat) (now : Nat) : Bool × MemStorage :=
  let s1 :=
    match mapGet s.orders id with
    | some o =>
        (s.createLog
          ⟨"Info", "Order #" ++ toString id ++ " canceled: " ++ o.side ++ " "
            ++ toString o.quantity ++ " " ++ o.symbol ++ " @ " ++ o.price⟩ now).2
    | none => s
  ((mapGet s.orders id).isSome, { s1 with orders := mapDelete s1.orders id })

/-- `getPositions`. -/
def getPositions (s : MemStorage) : List Position := mapValues s.positions

/-- `createPosition`. -/
def createPosition (s : MemStorage) (p : InsertPosition) : Position × MemStorage :=
  let id := s.positionId
  let newPosition : Position := ⟨id, p.accountId, p.symbol, p.quantity, p.avgPrice, p.pnl⟩
  (newPosition,
    { s with positions := mapSet s.positions id newPosition, positionId := s.positionId + 1 })

/-- `deletePosition`. -/
def deletePosition (s : MemStorage) (id : Nat) : Bool × MemStorage :=
  ((mapGet s.positions id).isSome, { s with positions := mapDelete s.positions id })

/-- `getSetting`. -/
def getSetting (s : MemStorage) (type : String) : Option Setting :=
  mapGet s.settingsMap type

/-- `createOrUpdateSetting`: update `data` in place when a row of this
type exists, otherwise create a fresh row with the next setting id. -/
def createOrUpdateSetting (s : MemStorage) (type : String) (data : JVal) :
    Setting × MemStorage :=
  match mapGet s.settingsMap type with
  | some existing =>
    let updated := { existing with data := data }
    (updated, { s with settingsMap := mapSet s.settingsMap type updated })
  | none =>
    let newSetting : Setting := ⟨s.settingId, type, data⟩
    (newSetting,
      { s with settingsMap := mapSet s.settingsMap type newSetting,
               settingId := s.settingId + 1 })

/-- `getServiceStatuses`. -/
def getServiceStatuses (s : MemStorage) : List ServiceStatus :=
  mapValues s.serviceStatusMap

/-- `getProgramState`. -/
def getProgramState (s : MemStorage) : Option ProgramState := s.programStateValue

/-- `toggleProgramState`: flip `running` (create the singleton when
absent), stamp, and log "Program started"/"Program stopped". -/
def toggleProgramState (s : MemStorage) (now : Nat) : ProgramState × MemStorage :=
  let (ps, s) :=
    match s.programStateValue with
    | none =>
      let ps : ProgramState := ⟨s.programStateId, true, now⟩
      (ps, { s with programStateValue := some ps, programStateId := s.programStateId + 1 })
    | some old =>
      let ps : ProgramState := { old with running := !old.running, updatedAt := now }
      (ps, { s with programStateValue := some ps })
  let s := (s.createLog
    ⟨"Info", "Program " ++ (if ps.running then "started" else "stopped")⟩ now).2
  (ps, s)

/-- `getCurrentBandData`: the last appended entry. -/
def getCurrentBandData (s : MemStorage) : Option BandData :=
  s.bandDataHistory.getLast?

/-- `updateBandData`: append, then `shift()` when the length exceeds
1000. -/
def updateBandData (s : MemStorage) (d : InsertBandData) (now : Nat) :
    BandData × MemStorage :=
  let newBandData : BandData := ⟨s.bandDataId, d.premium, d.upperBand, d.lowerBand, now⟩
  let h := s.bandDataHistory ++ [newBandData]
  let h := if h.length > 1000 then h.tail else h
  (newBandData, { s with bandDataHistory := h, bandDataId := s.bandDataId + 1 })

/-- `array.slice(start)` for an integer `start` (the code calls
`slice(-limit)`): a negative start counts from the end, clamped at the
front; a non-negative start drops that many elements.  `-0` is `0` in
`ℤ`, matching JS where `slice(-0) = slice(0)` returns the whole
array. -/
def jsSlice {α : Type} (l : List α) (start : ℤ) : List α :=
  if start < 0 then l.drop (l.length - (-start).toNat)
  else l.drop start.toNat

/-- `getBandDataHistory(limit)`: `slice(-limit)`. -/
def getBandDataHistory (s : MemStorage) (limit : ℤ) : List BandData :=
  jsSlice s.bandDataHistory (-limit)

/-- `getCurrentQuote`. -/
def getCurrentQuote (s : MemStorage) (symbol : String) : Option QuoteData :=
  match mapGet s.quoteDataMap symbol with
  | none => none
  | some quotes => quotes.getLast?

/-- `updateQuote`: ensure the per-symbol array exists, push, then
`shift()` when its length exceeds 1000. -/
def updateQuote (s : MemStorage) (d : InsertQuoteData) (now : Nat) :
    QuoteData × MemStorage :=
  let newQuote : QuoteData := ⟨s.quoteDataId, d.symbol, d.price, d.change, now⟩
  let m := if (mapGet s.quoteDataMap d.symbol).isSome then s.quoteDataMap
           else mapSet s.quoteDataMap d.symbol []
  let quotes := (mapGet m d.symbol).getD []
  let quotes := quotes ++ [newQuote]
  let quotes := if quotes.length > 1000 then quotes.tail else quotes
  (newQuote, { s with quoteDataMap := mapSet m d.symbol quotes,
                      quoteDataId := s.quoteDataId + 1 })

/-- `getQuoteHistory(symbol, limit)`: `slice(-limit)` of the symbol's
array, `[]` when the symbol is unknown. -/
def getQuoteHistory (s : MemStorage) (symbol : String) (limit : ℤ) : List QuoteData :=
  match mapGet s.quoteDataMap symbol with
  | none => []
  | some quotes => jsSlice quotes (-limit)

end MemStorage

/-! ## Broadcast events and route handlers (`registerRoutes`) -/

/-- A `{ type, data }` WebSocket event envelope, as a closed sum over
the event kinds the server emits. -/
inductive Event where
  | bandDataUpdated (b : BandData)
  | positionsUpdated (ps : List Position)
  | ordersUpdated (os : List Order)
  | orderAdded (o : Order)
  | orderUpdated (o : Order)
  | orderDeleted (id : Nat)
  | serviceStatusUpdated (ss : List ServiceStatus)
  | logAdded (l : Log)
  | logsUpdated (ls : List Log)
  | programStateUpdated (p : Option ProgramState)
  | quoteUpdated (q : QuoteData)
  | settingUpdated (type : String) (data : JVal)
  deriving DecidableEq, Repr

/-- `sendInitialData`: the bootstrap handshake pushed to a freshly
opened connection, in emission order.  The band-data and quote events
are guarded (`if (bandData)` / `if (quoteData)`); the positions,
orders, service-status, logs and program-state events are sent
unconditionally. -/
def sendInitialData (s : MemStorage) : List Event :=
  (match s.getCurrentBandData with
   | some b => [Event.bandDataUpdated b]
   | none => []) ++
  [Event.positionsUpdated s.getPositions,
   Event.ordersUpdated s.getOrders,
   Event.serviceStatusUpdated s.getServiceStatuses,
   Event.logsUpdated s.getLogs,
   Event.programStateUpdated s.getProgramState] ++
  (match s.getCurrentQuote "ES2023" with
   | some q => [Event.quoteUpdated q]
   | none => [])

/-! ### Request-body validation (`insertOrderSchema.parse`)

`insertOrderSchema = createInsertSchema(orders).omit({id, createdAt})`.
drizzle-zod derives: `accountId`/`quantity` (integer columns) →
`z.number()`, `symbol`/`side`/`orderType`/`timeInForce`/`status` (text
columns) → `z.string()`, `price` (numeric column) → `z.string()`.
None of the text columns carries an enum refinement — the
"Buy"/"Sell" and status domains exist only in source comments. -/

/-- A candidate `POST /api/orders` body: each schema field either
absent or some JSON value. -/
structure OrderBody where
  accountId : Option JVal := none
  symbol : Option JVal := none
  side : Option JVal := none
  quantity : Option JVal := none
  price : Option JVal := none
  orderType : Option JVal := none
  timeInForce : Option JVal := none
  status : Option JVal := none
  deriving DecidableEq, Repr

/-- Check a field against `z.number()`. -/
def checkNum : Option JVal → Option ℚ
  | some (JVal.jnum q) => some q
  | _ => none

/-- Check a field against `z.string()`. -/
def checkStr : Option JVal → Option String
  | some (JVal.jstr s) => some s
  | _ => none

/-- `insertOrderSchema.parse`: succeed with the typed insert row, or
fail with the list of violating field names (the paths of the issues in
the thrown `ZodError`'s `errors` array). -/
def validateInsertOrder (b : OrderBody) : Except (List String) InsertOrder :=
  match checkNum b.accountId, checkStr b.symbol, checkStr b.side,
        checkNum b.quantity, checkStr b.price, checkStr b.orderType,
        checkStr b.timeInForce, checkStr b.status with
  | some accountId, some symbol, some side, some quantity, some price,
    some orderType, some timeInForce, some status =>
      Except.ok ⟨accountId, symbol, side, quantity, price, orderType, timeInForce, status⟩
  | _, _, _, _, _, _, _, _ =>
      Except.error <|
        (if (checkNum b.accountId).isNone then ["accountId"] else []) ++
        (if (checkStr b.symbol).isNone then ["symbol"] else []) ++
        (if (checkStr b.side).isNone then ["side"] else []) ++
        (if (checkNum b.quantity).isNone then ["quantity"] else []) ++
        (if (checkStr b.price).isNone then ["price"] else []) ++
        (if (checkStr b.orderType).isNone then ["orderType"] else []) ++
        (if (checkStr b.timeInForce).isNone then ["timeInForce"] else []) ++
        (if (checkStr b.status).isNone then ["status"] else [])

/-- Outcome of `POST /api/orders`: 201 with the new order, or 400 with
`{ message: "Invalid order data", errors }`. -/
inductive PostOrderResp where
  | r201 (o : Order)
  | r400 (message : String) (errs : List String)
  deriving DecidableEq, Repr

/-- The `POST /api/orders` handler: validate, create, broadcast
`orderAdded`; on a `ZodError`, 400 and no store mutation, no
broadcast. -/
def postOrdersRoute (s : MemStorage) (body : OrderBody) (now : Nat) :
    PostOrderResp × MemStorage × List Event :=
  match validateInsertOrder body with
  | Except.error errs => (PostOrderResp.r400 "Invalid order data" errs, s, [])
  | Except.ok o =>
    let (newOrder, s) := s.createOrder o now
    (PostOrderResp.r201 newOrder, s, [Event.orderAdded newOrder])

/-- Outcome of `DELETE /api/orders/:id`: empty 204, or 404 with a
message. -/
inductive DeleteOrderResp where
  | r204
  | r404 (message : String)
  deriving DecidableEq, Repr

/-- The `DELETE /api/orders/:id` handler: delete, 404 without broadcast
when the id was unknown, otherwise broadcast `orderDeleted {id}` and
answer 204. -/
def deleteOrdersRoute (s : MemStorage) (id : Nat) (now : Nat) :
    DeleteOrderResp × MemStorage × List Event :=
  let (success, s) := s.deleteOrder id now
  if success then (DeleteOrderResp.r204, s, [Event.orderDeleted id])
  else (DeleteOrderResp.r404 "Order not found", s, [])

/-- The `GET /api/band-data/history` handler: `limit` is
`parseInt(req.query.limit)` when the query parameter is present (a
present parameter is modelled as its parsed integer; `"0"` is a truthy
string, so `?limit=0` yields `0`), and `100` when absent. -/
def bandHistoryRoute (s : MemStorage) (limit : Option ℤ) : List BandData :=
  s.getBandDataHistory (limit.getD 100)

/-- The `GET /api/quote/:symbol/history` handler, with the same `limit`
treatment. -/
def quoteHistoryRoute (s : MemStorage) (symbol : String) (limit : Option ℤ) :
    List QuoteData :=
  s.getQuoteHistory symbol (limit.getD 100)

/-! ## Client Reconciler numeric parsing (`TradingContext`) -/

/-- A stored JS numeric field on the client: a finite number, `NaN`, or
`null`. -/
inductive NumVal where
  | val (q : ℚ)
  | nan
  | null
  deriving DecidableEq, Repr

/-- Digits-to-nat accumulator. -/
def natOfDigits (ds : List Char) : Nat :=
  ds.foldl (fun acc c => 10 * acc + (c.toNat - '0'.toNat)) 0

/-- Model of JS `parseFloat` on a string, for plain decimal notation:
skip leading whitespace, optional sign, the longest run of digits, an
optional fractional part; `none` models `NaN` (no digits at all).
Exponent notation and `Infinity` are outside the inputs this codebase
ever parses and are not modelled. -/
def parseFloatM (s : String) : Option ℚ :=
  let cs := s.data.dropWhile (·.isWhitespace)
  let sign : ℚ := if cs.head? = some '-' then -1 else 1
  let cs := if cs.head? = some '-' ∨ cs.head? = some '+' then cs.tail else cs
  let ds := cs.takeWhile (·.isDigit)
  let rest := cs.dropWhile (·.isDigit)
  let fs := if rest.head? = some '.' then rest.tail.takeWhile (·.isDigit) else []
  if ds.isEmpty ∧ fs.isEmpty then none
  else some (sign * ((natOfDigits ds : ℚ) + (natOfDigits fs : ℚ) / 10 ^ fs.length))

/-- `str.replace(/,/g, '')`. -/
def stripCommas (s : String) : String :=
  ⟨s.data.filter (· ≠ ',')⟩

/-- The defensive per-field pattern of `parseOrderFields`: strip commas
when the raw value is a string and `parseFloat` it, keep a number as
is, anything else is `NaN`; then `!isNaN(x) ? x : null`.  The result is
therefore a number or `null`, never `NaN`. -/
def orderNumField (v : JVal) : NumVal :=
  let temp : Option ℚ :=
    match v with
    | JVal.jstr s => parseFloatM (stripCommas s)
    | JVal.jnum q => some q
    | _ => none
  match temp with
  | some q => NumVal.val q
  | none => NumVal.null

/-- Bare JS `parseFloat(x)` with its `ToString` coercion of the
argument: numbers pass through, strings are parsed (no comma
stripping), `null`/booleans stringify to non-numeric text and give
`NaN`. -/
def jsParseFloat (v : JVal) : NumVal :=
  match v with
  | JVal.jnum q => NumVal.val q
  | JVal.jstr s =>
    match parseFloatM s with
    | some q => NumVal.val q
    | none => NumVal.nan
  | _ => NumVal.nan

/-- Raw order payload fields handled by `parseOrderFields` (only the
numeric fields are modelled precisely; identification fields are
stringified pass-throughs irrelevant to the parsing claims). -/
structure RawOrder where
  price : JVal
  quantityOrdered : JVal
  quantityLeft : JVal
  deriving DecidableEq, Repr

/-- The numeric part of a client-side order after `parseOrderFields`. -/
structure ClientOrderNums where
  price : NumVal
  quantity : NumVal
  quantityLeft : NumVal
  deriving DecidableEq, Repr

/-- `parseOrderFields` (TradingContext, orders fetch): each numeric
field gets comma-stripping, `parseFloat`, and the `NaN → null`
guard. -/
def parseOrderFields (r : RawOrder) : ClientOrderNums :=
  { price := orderNumField r.price
    quantity := orderNumField r.quantityOrdered
    quantityLeft := orderNumField r.quantityLeft }

/-- Raw position payload fields relevant to numeric parsing. -/
structure RawPosition where
  quantity : JVal
  price : JVal
  pnl : JVal
  deriving DecidableEq, Repr

/-- The numeric part of a client-side position after the positions
mapping. -/
structure ClientPositionNums where
  quantity : NumVal
  avgPrice : NumVal
  pnl : NumVal
  deriving DecidableEq, Repr

/-- The positions mapping in the TradingContext fetch: `avgPrice` gets
the robust comma-strip/`null` treatment, but `quantity` and `pnl` are
bare `parseFloat(p.quantity)` / `parseFloat(p.pnl)` — no comma
stripping, and `NaN` is stored as is. -/
def mapPositionFields (r : RawPosition) : ClientPositionNums :=
  { quantity := jsParseFloat r.quantity
    avgPrice := orderNumField r.price
    pnl := jsParseFloat r.pnl }

/-! ## Operation sequences

Traces of storage calls, used to state the history-bound and
id-monotonicity invariants over arbitrary interleavings. -/

/-- The last `n` elements of a list (the retained window of a bounded
history). -/
def lastN {α : Type} (n : Nat) (l : List α) : List α := l.drop (l.length - n)

/-- The per-symbol quote array as the reconciled client sees it
(`[]` when the symbol has never been quoted). -/
def quotesAt (s : MemStorage) (sym : String) : List QuoteData :=
  (mapGet s.quoteDataMap sym).getD []

/-- An append operation on one of the three bounded histories. -/
inductive HOp where
  | hlog (l : InsertLog) (now : Nat)
  | hband (b : InsertBandData) (now : Nat)
  | hquote (q : InsertQuoteData) (now : Nat)
  deriving DecidableEq, Repr

/-- Run a sequence of history appends against the store. -/
def runH : MemStorage → List HOp → MemStorage
  | s, [] => s
  | s, HOp.hlog l t :: rest => runH (s.createLog l t).2 rest
  | s, HOp.hband b t :: rest => runH (s.updateBandData b t).2 rest
  | s, HOp.hquote q t :: rest => runH (s.updateQuote q t).2 rest

/-- The full (untruncated) list of `Log` rows a sequence of appends
creates, ids starting at `i`. -/
def expLogs : Nat → List HOp → List Log
  | _, [] => []
  | i, HOp.hlog l t :: r => ⟨i, t, l.level, l.message⟩ :: expLogs (i + 1) r
  | i, _ :: r => expLogs i r

/-- The full (untruncated) list of `BandData` rows a sequence of
appends creates, ids starting at `i`. -/
def expBand : Nat → List HOp → List BandData
  | _, [] => []
  | i, HOp.hband b t :: r => ⟨i, b.premium, b.upperBand, b.lowerBand, t⟩ :: expBand (i + 1) r
  | i, _ :: r => expBand i r

/-- The full (untruncated) list of `QuoteData` rows a sequence of
appends creates (all symbols, in order), ids starting at `i`. -/
def expQuotes : Nat → List HOp → List QuoteData
  | _, [] => []
  | i, HOp.hquote q t :: r => ⟨i, q.symbol, q.price, q.change, t⟩ :: expQuotes (i + 1) r
  | i, _ :: r => expQuotes i r

/-- The collections with a `create` operation. -/
inductive Coll where
  | users
  | accounts
  | orders
  | positions
  | logs
  deriving DecidableEq, Repr

/-- A serialized storage call (the single-threaded runtime serializes
all mutations). -/
inductive SOp where
  | opCreateUser (u : InsertUser)
  | opCreateAccount (a : InsertAccount)
  | opCreateOrder (o : InsertOrder) (now : Nat)
  | opCreatePosition (p : InsertPosition)
  | opCreateLog (l : InsertLog) (now : Nat)
  | opUpdateOrder (id : Nat) (p : MemStorage.OrderPatch) (now : Nat)
  | opDeleteOrder (id : Nat) (now : Nat)
  | opDeleteAccount (id : Nat)
  | opDeletePosition (id : Nat)
  | opUpsertSetting (type : String) (data : JVal)
  | opToggleProgramState (now : Nat)
  | opUpdateBandData (b : InsertBandData) (now : Nat)
  | opUpdateQuote (q : InsertQuoteData) (now : Nat)
  deriving DecidableEq, Repr

/-- Apply one serialized call to the store. -/
def applyOp (s : MemStorage) : SOp → MemStorage
  | SOp.opCreateUser u => (s.createUser u).2
  | SOp.opCreateAccount a => (s.createAccount a).2
  | SOp.opCreateOrder o t => (s.createOrder o t).2
  | SOp.opCreatePosition p => (s.createPosition p).2
  | SOp.opCreateLog l t => (s.createLog l t).2
  | SOp.opUpdateOrder id p t => (s.updateOrder id p t).2
  | SOp.opDeleteOrder id t => (s.deleteOrder id t).2
  | SOp.opDeleteAccount id => (s.deleteAccount id).2
  | SOp.opDeletePosition id => (s.deletePosition id).2
  | SOp.opUpsertSetting ty d => (s.createOrUpdateSetting ty d).2
  | SOp.opToggleProgramState t => (s.toggleProgramState t).2
  | SOp.opUpdateBandData b t => (s.updateBandData b t).2
  | SOp.opUpdateQuote q t => (s.updateQuote q t).2

/-- The id a `create` call on state `s` returns, tagged with its
collection; `none` for non-create calls. -/
def createEvent (s : MemStorage) : SOp → Option (Coll × Nat)
  | SOp.opCreateUser _ => some (Coll.users, s.userId)
  | SOp.opCreateAccount _ => some (Coll.accounts, s.accountId)
  | SOp.opCreateOrder _ _ => some (Coll.orders, s.orderId)
  | SOp.opCreatePosition _ => some (Coll.positions, s.positionId)
  | SOp.opCreateLog _ _ => some (Coll.logs, s.logId)
  | _ => none

/-- The chronological list of `(collection, returned id)` pairs of the
create calls in an op sequence. -/
def trace (s : MemStorage) : List SOp → List (Coll × Nat)
  | [] => []
  | op :: rest => (createEvent s op).toList ++ trace (applyOp s op) rest

/-- The id counter of a collection. -/
def counterOf (c : Coll) (s : MemStorage) : Nat :=
  match c with
  | Coll.users => s.userId
  | Coll.accounts => s.accountId
  | Coll.orders => s.orderId
  | Coll.positions => s.positionId
  | Coll.logs => s.logId

/-! ## Helper lemmas: association-list maps -/

theorem mapGet_mapSet_self {K V : Type} [DecidableEq K] (m : List (K × V)) (k : K) (v : V) :
    mapGet (mapSet m k v) k = some v := by
  induction m with
  | nil => simp [mapGet, mapSet]
  | cons p rest ih =>
    obtain ⟨k', v'⟩ := p
    by_cases h : k' = k <;> simp [mapGet, mapSet, h, ih]

theorem mapGet_mapSet_ne {K V : Type} [DecidableEq K] (m : List (K × V)) (k k' : K) (v : V)
    (h : k' ≠ k) : mapGet (mapSet m k v) k' = mapGet m k' := by
  induction m with
  | nil =>
    simp only [mapSet, mapGet]
    rw [if_neg (Ne.symm h)]
  | cons p rest ih =>
    obtain ⟨k₀, v₀⟩ := p
    simp only [mapSet]
    by_cases h0 : k₀ = k
    · subst h0
      rw [if_pos rfl]
      simp only [mapGet]
      rw [if_neg (Ne.symm h), if_neg (Ne.symm h)]
    · rw [if_neg h0]
      simp only [mapGet]
      by_cases h1 : k₀ = k'
      · rw [if_pos h1, if_pos h1]
      · rw [if_neg h1, if_neg h1, ih]

theorem mapDelete_of_get_none {K V : Type} [DecidableEq K] (m : List (K × V)) (k : K)
    (h : mapGet m k = none) : mapDelete m k = m := by
  induction m with
  | nil => simp [mapDelete]
  | cons p rest ih =>
    obtain ⟨k₀, v₀⟩ := p
    by_cases h0 : k₀ = k
    · simp [mapGet, h0] at h
    · simp [mapGet, h0] at h
      simp [mapDelete, h0, ih h]

/-! ## Helper lemmas: the `lastN` retained window -/

theorem lastN_of_le {α : Type} {n : Nat} {l : List α} (h : l.length ≤ n) :
    lastN n l = l := by
  unfold lastN
  rw [Nat.sub_eq_zero_of_le h, List.drop_zero]

theorem length_lastN {α : Type} (n : Nat) (l : List α) :
    (lastN n l).length = min n l.length := by
  unfold lastN
  rw [List.length_drop]
  omega

theorem length_lastN_le {α : Type} (n : Nat) (l : List α) :
    (lastN n l).length ≤ n := by
  rw [length_lastN]; omega

/-- Truncating an already-truncated prefix changes nothing: the last
`n` of `lastN n A ++ B` are the last `n` of `A ++ B`. -/
theorem lastN_append_lastN {α : Type} (n : Nat) (A B : List α) :
    lastN n (lastN n A ++ B) = lastN n (A ++ B) := by
  simp only [lastN, List.length_append, List.length_drop,
    List.drop_append_eq_append_drop, List.drop_drop]
  congr 2 <;> omega

/-- The push-then-shift step of the bounded histories equals keeping
the last 1000 of the appended list, provided the bound already
holds. -/
theorem boundedStep_eq_lastN {α : Type} (l : List α) (x : α) (h : l.length ≤ 1000) :
    (if (l ++ [x]).length > 1000 then (l ++ [x]).tail else (l ++ [x]))
      = lastN 1000 (l ++ [x]) := by
  have hx : (l ++ [x]).length = l.length + 1 := by
    rw [List.length_append, List.length_cons, List.length_nil]
  by_cases hlen : l.length = 1000
  · have h1 : (l ++ [x]).length > 1000 := by omega
    rw [if_pos h1]
    unfold lastN
    have h2 : (l ++ [x]).length - 1000 = 1 := by omega
    rw [h2, List.drop_one]
  · have h1 : ¬ (l ++ [x]).length > 1000 := by omega
    rw [if_neg h1, lastN_of_le (by omega)]

theorem length_boundedStep_le {α : Type} (l : List α) (x : α) (h : l.length ≤ 1000) :
    (if (l ++ [x]).length > 1000 then (l ++ [x]).tail else (l ++ [x])).length ≤ 1000 := by
  rw [boundedStep_eq_lastN l x h]
  exact length_lastN_le 1000 _

/-! ## Helper lemmas: the bounded histories under `runH` -/

theorem runH_logs (xs : List HOp) : ∀ s : MemStorage, s.logs.length ≤ 1000 →
    (runH s xs).logs = lastN 1000 (s.logs ++ expLogs s.logId xs) := by
  induction xs with
  | nil =>
    intro s h
    simp only [runH, expLogs, List.append_nil]
    rw [lastN_of_le h]
  | cons op rest ih =>
    intro s h
    cases op with
    | hlog l t =>
      simp only [runH, expLogs]
      have hstep : (s.createLog l t).2.logs
          = lastN 1000 (s.logs ++ [⟨s.logId, t, l.level, l.message⟩]) := by
        simp only [MemStorage.createLog]
        exact boundedStep_eq_lastN _ _ h
      have hlen : (s.createLog l t).2.logs.length ≤ 1000 := by
        rw [hstep]; exact length_lastN_le _ _
      have hid : (s.createLog l t).2.logId = s.logId + 1 := rfl
      rw [ih _ hlen, hid, hstep, lastN_append_lastN]
      rw [List.append_assoc, List.singleton_append]
    | hband b t =>
      simp only [runH, expLogs]
      have h1 : (s.updateBandData b t).2.logs = s.logs := rfl
      have h2 : (s.updateBandData b t).2.logId = s.logId := rfl
      rw [ih _ (h1 ▸ h), h1, h2]
    | hquote q t =>
      simp only [runH, expLogs]
      have h1 : (s.updateQuote q t).2.logs = s.logs := rfl
      have h2 : (s.updateQuote q t).2.logId = s.logId := rfl
      rw [ih _ (h1 ▸ h), h1, h2]

theorem runH_band (xs : List HOp) : ∀ s : MemStorage, s.bandDataHistory.length ≤ 1000 →
    (runH s xs).bandDataHistory = lastN 1000 (s.bandDataHistory ++ expBand s.bandDataId xs) := by
  induction xs with
  | nil =>
    intro s h
    simp only [runH, expBand, List.append_nil]
    rw [lastN_of_le h]
  | cons op rest ih =>
    intro s h
    cases op with
    | hband b t =>
      simp only [runH, expBand]
      have hstep : (s.updateBandData b t).2.bandDataHistory
          = lastN 1000 (s.bandDataHistory ++ [⟨s.bandDataId, b.premium, b.upperBand, b.lowerBand, t⟩]) := by
        simp only [MemStorage.updateBandData]
        exact boundedStep_eq_lastN _ _ h
      have hlen : (s.updateBandData b t).2.bandDataHistory.length ≤ 1000 := by
        rw [hstep]; exact length_lastN_le _ _
      have hid : (s.updateBandData b t).2.bandDataId = s.bandDataId + 1 := rfl
      rw [ih _ hlen, hid, hstep, lastN_append_lastN]
      rw [List.append_assoc, List.singleton_append]
    | hlog l t =>
      simp only [runH, expBand]
      have h1 : (s.createLog l t).2.bandDataHistory = s.bandDataHistory := rfl
      have h2 : (s.createLog l t).2.bandDataId = s.bandDataId := rfl
      rw [ih _ (h1 ▸ h), h1, h2]
    | hquote q t =>
      simp only [runH, expBand]
      have h1 : (s.updateQuote q t).2.bandDataHistory = s.bandDataHistory := rfl
      have h2 : (s.updateQuote q t).2.bandDataId = s.bandDataId := rfl
      rw [ih _ (h1 ▸ h), h1, h2]

set_option maxRecDepth 8000 in
/-- Effect of one `updateQuote` on each symbol's array: push-and-shift
on the quoted symbol, untouched elsewhere. -/
theorem quotesAt_updateQuote (s : MemStorage) (d : InsertQuoteData) (t : Nat) (sym : String)
    (h : (quotesAt s d.symbol).length ≤ 1000) :
    quotesAt (s.updateQuote d t).2 sym =
      if d.symbol = sym
      then lastN 1000 (quotesAt s d.symbol ++ [⟨s.quoteDataId, d.symbol, d.price, d.change, t⟩])
      else quotesAt s sym := by
  have hm : (mapGet (if (mapGet s.quoteDataMap d.symbol).isSome then s.quoteDataMap
      else mapSet s.quoteDataMap d.symbol []) d.symbol).getD [] = quotesAt s d.symbol := by
    cases hq : mapGet s.quoteDataMap d.symbol with
    | some l => simp [hq, quotesAt]
    | none => simp [hq, mapGet_mapSet_self, quotesAt]
  by_cases hsym : d.symbol = sym
  · subst hsym
    simp only [MemStorage.updateQuote, quotesAt, mapGet_mapSet_self, Option.getD_some]
    rw [hm]
    exact boundedStep_eq_lastN _ _ h
  · rw [if_neg hsym]
    simp only [MemStorage.updateQuote, quotesAt]
    rw [mapGet_mapSet_ne _ _ _ _ (Ne.symm hsym)]
    cases hq : mapGet s.quoteDataMap d.symbol with
    | some l => simp [hq]
    | none =>
      simp only [hq, Option.isSome_none, Bool.false_eq_true, if_false]
      rw [mapGet_mapSet_ne _ _ _ _ (Ne.symm hsym)]

theorem runH_quotes (xs : List HOp) : ∀ s : MemStorage,
    (∀ sym, (quotesAt s sym).length ≤ 1000) → ∀ sym,
    quotesAt (runH s xs) sym
      = lastN 1000 (quotesAt s sym
          ++ (expQuotes s.quoteDataId xs).filter (fun q => q.symbol = sym)) := by
  induction xs with
  | nil =>
    intro s h sym
    simp only [runH, expQuotes, List.filter_nil, List.append_nil]
    rw [lastN_of_le (h sym)]
  | cons op rest ih =>
    intro s h sym
    cases op with
    | hquote q t =>
      have hat : ∀ sym', quotesAt (s.updateQuote q t).2 sym'
          = if q.symbol = sym'
            then lastN 1000 (quotesAt s q.symbol ++ [⟨s.quoteDataId, q.symbol, q.price, q.change, t⟩])
            else quotesAt s sym' :=
        fun sym' => quotesAt_updateQuote s q t sym' (h q.symbol)
      have hlen' : ∀ sym', (quotesAt (s.updateQuote q t).2 sym').length ≤ 1000 := by
        intro sym'
        rw [hat sym']
        by_cases hc : q.symbol = sym'
        · rw [if_pos hc]; exact length_lastN_le _ _
        · rw [if_neg hc]; exact h sym'
      have hid : (s.updateQuote q t).2.quoteDataId = s.quoteDataId + 1 := rfl
      simp only [runH, expQuotes]
      rw [ih _ hlen' sym, hid]
      by_cases hc : q.symbol = sym
      · rw [List.filter_cons_of_pos (by simpa using hc), hat sym, if_pos hc]
        subst hc
        rw [lastN_append_lastN, List.append_assoc, List.singleton_append]
      · rw [List.filter_cons_of_neg (by simpa using hc), hat sym, if_neg hc]
    | hlog l t =>
      simp only [runH, expQuotes]
      have h1 : ∀ sym', quotesAt (s.createLog l t).2 sym' = quotesAt s sym' := fun _ => rfl
      have h2 : (s.createLog l t).2.quoteDataId = s.quoteDataId := rfl
      rw [ih _ (fun sym' => (h1 sym') ▸ h sym') sym, h1, h2]
    | hband b t =>
      simp only [runH, expQuotes]
      have h1 : ∀ sym', quotesAt (s.updateBandData b t).2 sym' = quotesAt s sym' := fun _ => rfl
      have h2 : (s.updateBandData b t).2.quoteDataId = s.quoteDataId := rfl
      rw [ih _ (fun sym' => (h1 sym') ▸ h sym') sym, h1, h2]

/-- **C1**: starting from the empty store, after any interleaving of
`createLog`, `updateBandData` and `updateQuote` calls, each of the
three history collections has length at most 1000 and holds exactly
the most recently appended entries in insertion order — the last-1000
window of the full append sequence (oldest evicted first); for quotes,
per symbol. -/
theorem claim_C1_bounded_history (xs : List HOp) :
    ((runH MemStorage.empty xs).logs.length ≤ 1000
      ∧ (runH MemStorage.empty xs).logs = lastN 1000 (expLogs 1 xs))
    ∧ ((runH MemStorage.empty xs).bandDataHistory.length ≤ 1000
      ∧ (runH MemStorage.empty xs).bandDataHistory = lastN 1000 (expBand 1 xs))
    ∧ ∀ sym, (quotesAt (runH MemStorage.empty xs) sym).length ≤ 1000
      ∧ quotesAt (runH MemStorage.empty xs) sym
          = lastN 1000 ((expQuotes 1 xs).filter (fun q => q.symbol = sym)) := by
  have elogs : MemStorage.empty.logs = [] := rfl
  have elogId : MemStorage.empty.logId = 1 := rfl
  have eband : MemStorage.empty.bandDataHistory = [] := rfl
  have ebandId : MemStorage.empty.bandDataId = 1 := rfl
  have equotes : ∀ sym, quotesAt MemStorage.empty sym = [] := fun _ => rfl
  have equoteId : MemStorage.empty.quoteDataId = 1 := rfl
  have hl := runH_logs xs MemStorage.empty (by rw [elogs]; simp)
  have hb := runH_band xs MemStorage.empty (by rw [eband]; simp)
  have hq := runH_quotes xs MemStorage.empty (fun sym => by rw [equotes sym]; simp)
  rw [elogs, elogId, List.nil_append] at hl
  rw [eband, ebandId, List.nil_append] at hb
  refine ⟨⟨?_, hl⟩, ⟨?_, hb⟩, fun sym => ?_⟩
  · rw [hl]; exact length_lastN_le _ _
  · rw [hb]; exact length_lastN_le _ _
  · have hqs := hq sym
    rw [equotes sym, equoteId, List.nil_append] at hqs
    exact ⟨hqs ▸ length_lastN_le _ _, hqs⟩

/-! ## Helper lemmas: id counters along operation sequences -/

theorem counterOf_applyOp_le (c : Coll) (s : MemStorage) (op : SOp) :
    counterOf c s ≤ counterOf c (applyOp s op) := by
  cases op <;> cases c <;>
    simp only [applyOp, counterOf, MemStorage.createUser, MemStorage.createAccount,
      MemStorage.createOrder, MemStorage.createPosition, MemStorage.createLog,
      MemStorage.updateOrder, MemStorage.deleteOrder, MemStorage.deleteAccount,
      MemStorage.deletePosition, MemStorage.createOrUpdateSetting,
      MemStorage.toggleProgramState, MemStorage.updateBandData, MemStorage.updateQuote] <;>
    (try split) <;> simp

/-- A `create` call returns the collection's current counter and bumps
it by exactly one. -/
theorem createEvent_spec (s : MemStorage) (op : SOp) (e : Coll × Nat)
    (h : createEvent s op = some e) :
    e.2 = counterOf e.1 s ∧ counterOf e.1 (applyOp s op) = e.2 + 1 := by
  cases op <;> simp only [createEvent, Option.some.injEq, reduceCtorEq] at h
  all_goals first
  | exact absurd h (by simp)
  | (subst h; exact ⟨rfl, rfl⟩)

theorem trace_ids_ge (c : Coll) (ops : List SOp) : ∀ s : MemStorage,
    ∀ p ∈ trace s ops, p.1 = c → counterOf c s ≤ p.2 := by
  induction ops with
  | nil => intro s p hp; simp [trace] at hp
  | cons op rest ih =>
    intro s p hp hc
    simp only [trace, List.mem_append] at hp
    cases hp with
    | inl h1 =>
      cases hco : createEvent s op with
      | none => rw [hco] at h1; simp at h1
      | some e =>
        rw [hco] at h1
        simp only [Option.toList_some, List.mem_singleton] at h1
        subst h1
        have hspec := (createEvent_spec s op _ hco).1
        rw [hc] at hspec
        omega
    | inr h2 =>
      exact le_trans (counterOf_applyOp_le c s op) (ih (applyOp s op) p h2 hc)

/-- **C2**: from any state, along any serialized sequence of storage
calls, the ids returned by the `create` calls of any one collection
(users, accounts, orders, positions, logs) are strictly increasing in
chronological order: a later `create` on the same collection always
returns a strictly larger id. -/
theorem claim_C2_id_monotonicity (s : MemStorage) (ops : List SOp) (c : Coll) :
    (((trace s ops).filter (fun e => e.1 = c)).map Prod.snd).Pairwise (· < ·) := by
  induction ops generalizing s with
  | nil => simp [trace]
  | cons op rest ih =>
    simp only [trace, List.filter_append, List.map_append]
    cases hco : createEvent s op with
    | none => simpa using ih (applyOp s op)
    | some e =>
      obtain ⟨he1, he2⟩ := createEvent_spec s op e hco
      by_cases hc : e.1 = c
      · have hfil : (Option.toList (some e)).filter (fun x => decide (x.1 = c)) = [e] := by
          simp [hc]
        rw [hfil]
        simp only [List.map_cons, List.map_nil, List.singleton_append]
        rw [List.pairwise_cons]
        refine ⟨?_, ih (applyOp s op)⟩
        intro b hb
        simp only [List.mem_map, List.mem_filter] at hb
        obtain ⟨p, ⟨hpmem, hpc⟩, hpb⟩ := hb
        have hge := trace_ids_ge c rest (applyOp s op) p hpmem (by simpa using hpc)
        rw [← hc] at hge
        rw [he2] at hge
        omega
      · have hfil : (Option.toList (some e)).filter (fun x => decide (x.1 = c)) = [] := by
          simp [hc]
        rw [hfil]
        simpa using ih (applyOp s op)

/-! ## C3: order validation on `POST /api/orders` -/

/-- A syntactically well-typed order body whose `side` and `status` lie
outside the documented enumerations. -/
def c3Body : OrderBody :=
  { accountId := some (JVal.jnum 1)
    symbol := some (JVal.jstr "ES")
    side := some (JVal.jstr "Hold")
    quantity := some (JVal.jnum 1)
    price := some (JVal.jstr "4300")
    orderType := some (JVal.jstr "Limit")
    timeInForce := some (JVal.jstr "Day")
    status := some (JVal.jstr "Nonexistent") }

/-- **C3 (counterexample)**: the insert schema derives plain
`z.string()` for the `side` and `status` text columns, so a body with
`side = "Hold"` and `status = "Nonexistent"` passes validation: the
route answers 201, creates the order, and consumes an id — the claim
that out-of-domain `side`/`status` values are rejected with 400 is
false. -/
theorem claim_C3_counterexample :
    validateInsertOrder c3Body
      = Except.ok ⟨1, "ES", "Hold", 1, "4300", "Limit", "Day", "Nonexistent"⟩
    ∧ (postOrdersRoute MemStorage.empty c3Body 0).1
      = PostOrderResp.r201 ⟨1, 1, "ES", "Hold", 1, "4300", "Limit", "Day", "Nonexistent", 0⟩
    ∧ (postOrdersRoute MemStorage.empty c3Body 0).2.1.orderId = 2 := by
  refine ⟨rfl, rfl, rfl⟩

/-- **C3 (amended)**: `POST /api/orders` validates the body against the
derived schema shape (required fields; numbers for the integer columns,
strings for the text/numeric columns — `side` and `status` are
arbitrary strings, not checked against their enumerated domains); on
any validation failure the response is a 400 client error carrying the
list of violating fields, no event is broadcast, and the store is left
completely unchanged (no order created, no log appended, no id
consumed). -/
theorem claim_C3_validation_failure (s : MemStorage) (body : OrderBody) (now : Nat)
    (errs : List String) (h : validateInsertOrder body = Except.error errs) :
    postOrdersRoute s body now = (PostOrderResp.r400 "Invalid order data" errs, s, []) := by
  simp [postOrdersRoute, h]

/-- Witness for C3: a body with a numeric `side` and every other field
missing fails validation on all eight fields and leaves the store
untouched. -/
theorem claim_C3_validation_failure_witness :
    validateInsertOrder { side := some (JVal.jnum 5) }
      = Except.error ["accountId", "symbol", "side", "quantity", "price",
          "orderType", "timeInForce", "status"]
    ∧ postOrdersRoute MemStorage.empty { side := some (JVal.jnum 5) } 0
      = (PostOrderResp.r400 "Invalid order data"
          ["accountId", "symbol", "side", "quantity", "price",
            "orderType", "timeInForce", "status"], MemStorage.empty, []) :=
  ⟨rfl, claim_C3_validation_failure MemStorage.empty _ 0 _ rfl⟩

/-! ## C4: bootstrap handshake omission -/

/-- **C4 (counterexample)**: on the empty store the positions (and
orders, logs, service-status) collections are empty, yet
`sendInitialData` still sends their snapshot events with empty
payloads — only the band-data and quote events are guarded.  The claim
that every empty collection's snapshot event is omitted is false. -/
theorem claim_C4_counterexample :
    MemStorage.empty.getPositions = []
    ∧ sendInitialData MemStorage.empty
      = [Event.positionsUpdated [], Event.ordersUpdated [],
         Event.serviceStatusUpdated [], Event.logsUpdated [],
         Event.programStateUpdated none] := by
  refine ⟨rfl, rfl⟩

/-- **C4 (amended)**: during the bootstrap handshake only the band-data
and quote snapshot events are omitted when there is no data; the
positions, orders, service-status, logs and program-state snapshot
events are always sent, with empty payloads when their collections are
empty. -/
theorem claim_C4_bootstrap_omission (s : MemStorage) :
    ((∃ b, Event.bandDataUpdated b ∈ sendInitialData s) ↔ s.bandDataHistory ≠ [])
    ∧ ((∃ q, Event.quoteUpdated q ∈ sendInitialData s) ↔ s.getCurrentQuote "ES2023" ≠ none)
    ∧ Event.positionsUpdated s.getPositions ∈ sendInitialData s
    ∧ Event.ordersUpdated s.getOrders ∈ sendInitialData s
    ∧ Event.serviceStatusUpdated s.getServiceStatuses ∈ sendInitialData s
    ∧ Event.logsUpdated s.getLogs ∈ sendInitialData s
    ∧ Event.programStateUpdated s.getProgramState ∈ sendInitialData s := by
  have hband : s.getCurrentBandData = none ↔ s.bandDataHistory = [] := by
    unfold MemStorage.getCurrentBandData
    exact List.getLast?_eq_none_iff
  unfold sendInitialData
  cases hb : s.getCurrentBandData with
  | none =>
    cases hq : s.getCurrentQuote "ES2023" with
    | none =>
      simp only [List.nil_append, List.append_nil]
      refine ⟨?_, ?_, by simp, by simp, by simp, by simp, by simp⟩
      · simp only [List.mem_cons, List.not_mem_nil]
        constructor
        · rintro ⟨b, hmem⟩; simp at hmem
        · intro hne; exact absurd (hband.mp hb) hne
      · simp only [List.mem_cons, List.not_mem_nil]
        constructor
        · rintro ⟨q, hmem⟩; simp at hmem
        · intro hne; exact absurd rfl hne
    | some q0 =>
      simp only [List.nil_append]
      refine ⟨?_, ?_, by simp, by simp, by simp, by simp, by simp⟩
      · constructor
        · rintro ⟨b, hmem⟩; simp at hmem
        · intro hne; exact absurd (hband.mp hb) hne
      · exact ⟨fun _ => by simp [hq], fun _ => ⟨q0, by simp⟩⟩
  | some b0 =>
    cases hq : s.getCurrentQuote "ES2023" with
    | none =>
      simp only [List.append_nil]
      refine ⟨?_, ?_, by simp, by simp, by simp, by simp, by simp⟩
      · refine ⟨fun _ => ?_, fun _ => ⟨b0, by simp⟩⟩
        intro hnil
        rw [hband.mpr hnil] at hb
        exact Option.noConfusion hb
      · constructor
        · rintro ⟨q, hmem⟩; simp at hmem
        · intro hne; exact absurd rfl hne
    | some q0 =>
      refine ⟨?_, ?_, by simp, by simp, by simp, by simp, by simp⟩
      · refine ⟨fun _ => ?_, fun _ => ⟨b0, by simp⟩⟩
        intro hnil
        rw [hband.mpr hnil] at hb
        exact Option.noConfusion hb
      · exact ⟨fun _ => by simp [hq], fun _ => ⟨q0, by simp⟩⟩

/-! ## C7: deleting orders -/

/-- **C7**: `DELETE /api/orders/:id` on an id absent from the orders
collection answers 404, broadcasts nothing, and leaves the whole store
(orders, logs, counters) unchanged; on a present id it answers an
empty 204 and broadcasts an `orderDeleted` event carrying the id. -/
theorem claim_C7_delete_order (s : MemStorage) (id : Nat) (now : Nat) :
    (mapGet s.orders id = none →
      deleteOrdersRoute s id now = (DeleteOrderResp.r404 "Order not found", s, []))
    ∧ (∀ o, mapGet s.orders id = some o →
        (deleteOrdersRoute s id now).1 = DeleteOrderResp.r204
        ∧ (deleteOrdersRoute s id now).2.2 = [Event.orderDeleted id]) := by
  constructor
  · intro h
    unfold deleteOrdersRoute MemStorage.deleteOrder
    rw [h]
    simp only [Option.isSome_none, Bool.false_eq_true, if_false]
    rw [mapDelete_of_get_none s.orders id h]
  · intro o h
    unfold deleteOrdersRoute MemStorage.deleteOrder
    rw [h]
    exact ⟨rfl, rfl⟩

/-- A store holding exactly one order (id 1). -/
def c7State : MemStorage :=
  (MemStorage.empty.createOrder ⟨1, "ES", "Buy", 1, "4300", "Limit", "Day", "Working"⟩ 0).2

/-- Witness for C7: deleting id 999999 from the empty store is a 404
no-op; deleting id 1 from a store holding order 1 answers 204 and
broadcasts `orderDeleted 1`. -/
theorem claim_C7_delete_order_witness :
    deleteOrdersRoute MemStorage.empty 999999 0
      = (DeleteOrderResp.r404 "Order not found", MemStorage.empty, [])
    ∧ (deleteOrdersRoute c7State 1 5).1 = DeleteOrderResp.r204
    ∧ (deleteOrdersRoute c7State 1 5).2.2 = [Event.orderDeleted 1] := by
  refine ⟨(claim_C7_delete_order MemStorage.empty 999999 0).1 rfl, ?_, ?_⟩
  · exact ((claim_C7_delete_order c7State 1 5).2
      ⟨1, 1, "ES", "Buy", 1, "4300", "Limit", "Day", "Working", 0⟩ rfl).1
  · exact ((claim_C7_delete_order c7State 1 5).2
      ⟨1, 1, "ES", "Buy", 1, "4300", "Limit", "Day", "Working", 0⟩ rfl).2

/-! ## C8: band-data history limit -/

/-- **C8**: for every positive `limit` L, `GET /api/band-data/history`
returns exactly the last `min(L, n)` stored entries in insertion order
(the `lastN` window, oldest of the window first), and an unspecified
`limit` behaves exactly as `limit = 100`. -/
theorem claim_C8_band_history_limit (s : MemStorage) (L : ℤ) (hL : 0 < L) :
    bandHistoryRoute s (some L) = lastN L.toNat s.bandDataHistory
    ∧ (bandHistoryRoute s (some L)).length = min L.toNat s.bandDataHistory.length
    ∧ bandHistoryRoute s none = bandHistoryRoute s (some 100) := by
  have hroute : bandHistoryRoute s (some L) = lastN L.toNat s.bandDataHistory := by
    unfold bandHistoryRoute MemStorage.getBandDataHistory MemStorage.jsSlice lastN
    simp only [Option.getD_some]
    rw [if_pos (by omega : -L < 0), neg_neg]
  refine ⟨hroute, ?_, rfl⟩
  rw [hroute, length_lastN]

/-- Ten successive band-data appends on the empty store. -/
def c8State : MemStorage :=
  (List.range 10).foldl
    (fun (s : MemStorage) (i : Nat) =>
      (s.updateBandData ⟨(i : ℚ), (i : ℚ), (i : ℚ)⟩ i).2) MemStorage.empty

/-- Witness for C8: after 10 appends, `?limit=5` returns exactly the 5
most recently appended entries, oldest first (ids 6..10), and the
default limit equals 100. -/
theorem claim_C8_band_history_limit_witness :
    (bandHistoryRoute c8State (some 5) = lastN (5 : ℤ).toNat c8State.bandDataHistory
      ∧ (bandHistoryRoute c8State (some 5)).length
          = min (5 : ℤ).toNat c8State.bandDataHistory.length
      ∧ bandHistoryRoute c8State none = bandHistoryRoute c8State (some 100))
    ∧ bandHistoryRoute c8State (some 5)
      = [⟨6, 5, 5, 5, 5⟩, ⟨7, 6, 6, 6, 6⟩, ⟨8, 7, 7, 7, 7⟩, ⟨9, 8, 8, 8, 8⟩,
         ⟨10, 9, 9, 9, 9⟩] :=
  ⟨claim_C8_band_history_limit c8State 5 (by decide), by decide⟩

/-! ## C10: `limit = 0` returns the whole history -/

/-- **C10**: because `slice(-limit)` with `limit = 0` is `slice(0)`,
`getBandDataHistory 0` and `getQuoteHistory sym 0` return the entire
stored history, and a request with `?limit=0` (a truthy query string
parsed to `0`) receives the full history rather than nothing. -/
theorem claim_C10_limit_zero (s : MemStorage) (sym : String) :
    s.getBandDataHistory 0 = s.bandDataHistory
    ∧ s.getQuoteHistory sym 0 = (mapGet s.quoteDataMap sym).getD []
    ∧ bandHistoryRoute s (some 0) = s.bandDataHistory
    ∧ quoteHistoryRoute s sym (some 0) = (mapGet s.quoteDataMap sym).getD [] := by
  have hband : s.getBandDataHistory 0 = s.bandDataHistory := by
    unfold MemStorage.getBandDataHistory MemStorage.jsSlice
    norm_num
  have hquote : s.getQuoteHistory sym 0 = (mapGet s.quoteDataMap sym).getD [] := by
    unfold MemStorage.getQuoteHistory MemStorage.jsSlice
    cases h : mapGet s.quoteDataMap sym with
    | none => simp
    | some quotes => norm_num
  exact ⟨hband, hquote, hband, hquote⟩

/-! ## C5: toggle involution -/

theorem createLog_programStateValue (s : MemStorage) (l : InsertLog) (now : Nat) :
    (s.createLog l now).2.programStateValue = s.programStateValue := rfl

theorem createLog_logId (s : MemStorage) (l : InsertLog) (now : Nat) :
    (s.createLog l now).2.logId = s.logId + 1 := rfl

/-- `createLog` always leaves its fresh entry as the last element. -/
theorem createLog_logs_getLast (s : MemStorage) (l : InsertLog) (now : Nat) :
    (s.createLog l now).2.logs.getLast? = some ⟨s.logId, now, l.level, l.message⟩ := by
  simp only [MemStorage.createLog]
  split
  · rename_i h
    cases hA : s.logs with
    | nil => rw [hA] at h; simp at h
    | cons a A' =>
      simp only [List.cons_append, List.tail_cons]
      exact List.getLast?_concat _
  · exact List.getLast?_concat _

/-- Unfolding `toggleProgramState` when a program state exists. -/
theorem toggleProgramState_some (s : MemStorage) (ps : ProgramState) (now : Nat)
    (h : s.programStateValue = some ps) :
    s.toggleProgramState now =
      (⟨ps.id, !ps.running, now⟩,
       (({ s with programStateValue := some ⟨ps.id, !ps.running, now⟩ } : MemStorage).createLog
         ⟨"Info", "Program " ++ (if !ps.running then "started" else "stopped")⟩ now).2) := by
  simp only [MemStorage.toggleProgramState, h]

/-- Each toggle call grows the log by one entry up to the 1000 cap. -/
theorem toggleProgramState_logs_length (s : MemStorage) (now : Nat)
    (h : s.logs.length ≤ 1000) :
    (s.toggleProgramState now).2.logs.length = min (s.logs.length + 1) 1000 := by
  have key : ∀ (t : MemStorage) (l : InsertLog), t.logs = s.logs →
      (t.createLog l now).2.logs.length = min (s.logs.length + 1) 1000 := by
    intro t l ht
    simp only [MemStorage.createLog]
    rw [ht, boundedStep_eq_lastN _ _ h, length_lastN, List.length_append]
    simp only [List.length_cons, List.length_nil]
    omega
  cases hps : s.programStateValue with
  | none =>
    simp only [MemStorage.toggleProgramState, hps]
    exact key _ _ rfl
  | some ps =>
    simp only [MemStorage.toggleProgramState, hps]
    exact key _ _ rfl

/-- A thousand seed log entries. -/
def fullLogs : List Log := (List.range 1000).map (fun i => ⟨i + 1, 0, "Info", "seed"⟩)

/-- A store whose log buffer is at its 1000-entry cap, with a program
state present. -/
def c5State : MemStorage :=
  { MemStorage.empty with
    logs := fullLogs
    logId := 1001
    programStateValue := some ⟨1, false, 0⟩
    programStateId := 2 }

/-- **C5 (counterexample)**: with the log buffer already at its
1000-entry cap, two `toggleProgramState` calls still append (evicting
the oldest entries), so the log length grows by 0, not by exactly 2 —
the "grows by exactly 2" clause fails for such starting states. -/
theorem claim_C5_counterexample :
    c5State.logs.length = 1000
    ∧ ((c5State.toggleProgramState 1).2.toggleProgramState 2).2.logs.length
        ≠ c5State.logs.length + 2 := by
  have h0 : c5State.logs.length = 1000 := by
    simp [c5State, fullLogs]
  have h1 := toggleProgramState_logs_length c5State 1 h0.le
  have h2 := toggleProgramState_logs_length (c5State.toggleProgramState 1).2 2
    (by rw [h1, h0]; omega)
  refine ⟨h0, ?_⟩
  rw [h2, h1, h0]
  omega

/-- **C5 (amended)**: from any state with a program state present and a
log within its 1000 bound, toggling twice returns `running` to its
original value; each call appends exactly one Log entry ("Program
started" when the new state is running, "Program stopped" otherwise) as
the new last element, and the log length becomes
`min(original + 1, 1000)` then `min(original + 2, 1000)` — growth by
exactly 2 whenever the starting length is at most 998. -/
theorem claim_C5_toggle_involution (s : MemStorage) (now1 now2 : Nat) (ps : ProgramState)
    (hps : s.programStateValue = some ps) (hlen : s.logs.length ≤ 1000) :
    (s.toggleProgramState now1).1.running = !ps.running
    ∧ ((s.toggleProgramState now1).2.toggleProgramState now2).1.running = ps.running
    ∧ (s.toggleProgramState now1).2.logs.getLast?
        = some ⟨s.logId, now1, "Info",
            "Program " ++ (if !ps.running then "started" else "stopped")⟩
    ∧ ((s.toggleProgramState now1).2.toggleProgramState now2).2.logs.getLast?
        = some ⟨s.logId + 1, now2, "Info",
            "Program " ++ (if ps.running then "started" else "stopped")⟩
    ∧ (s.toggleProgramState now1).2.logs.length = min (s.logs.length + 1) 1000
    ∧ ((s.toggleProgramState now1).2.toggleProgramState now2).2.logs.length
        = min (s.logs.length + 2) 1000
    ∧ (s.logs.length ≤ 998 →
        ((s.toggleProgramState now1).2.toggleProgramState now2).2.logs.length
          = s.logs.length + 2) := by
  have e1 := toggleProgramState_some s ps now1 hps
  have hps1 : (s.toggleProgramState now1).2.programStateValue
      = some ⟨ps.id, !ps.running, now1⟩ := by
    rw [e1]
    exact createLog_programStateValue _ _ _
  have e2 := toggleProgramState_some (s.toggleProgramState now1).2
    ⟨ps.id, !ps.running, now1⟩ now2 hps1
  have hlen1 := toggleProgramState_logs_length s now1 hlen
  have hlen2 := toggleProgramState_logs_length (s.toggleProgramState now1).2 now2
    (by rw [hlen1]; omega)
  have hid1 : (s.toggleProgramState now1).2.logId = s.logId + 1 := by
    rw [e1]
    exact createLog_logId _ _ _
  refine ⟨by rw [e1], by rw [e2]; simp, ?_, ?_, hlen1, by rw [hlen2, hlen1]; omega,
    fun hsmall => by rw [hlen2, hlen1]; omega⟩
  · rw [e1]
    exact createLog_logs_getLast _ _ _
  · rw [e2]
    have := createLog_logs_getLast
      ({ (s.toggleProgramState now1).2 with
          programStateValue := some ⟨ps.id, !(!ps.running), now2⟩ } : MemStorage)
      ⟨"Info", "Program " ++ (if !(!ps.running) then "started" else "stopped")⟩ now2
    rw [this, hid1]
    simp [Bool.not_not]

/-! ## C9: client-side numeric parsing -/

theorem orderNumField_ne_nan (v : JVal) : orderNumField v ≠ NumVal.nan := by
  unfold orderNumField
  cases v with
  | jstr s => cases h : parseFloatM (stripCommas s) <;> simp [h]
  | jnum q => simp
  | jnull => simp
  | jbool b => simp

/-- **C9 (counterexample)**: in the positions mapping, `quantity` is
parsed by bare `parseFloat` so `"1,000"` becomes `1` (no comma
stripping) and `pnl = "abc"` is stored as `NaN`, not `null` — the
"uniformly for all numeric fields" claim is false. -/
theorem claim_C9_counterexample :
    mapPositionFields ⟨JVal.jstr "1,000", JVal.jstr "2,000", JVal.jstr "abc"⟩
      = ⟨NumVal.val 1, NumVal.val 2000, NumVal.nan⟩ := by
  simp +decide [mapPositionFields, jsParseFloat, orderNumField, stripCommas,
    parseFloatM, natOfDigits]

/-- **C9 (amended)**: the defensive comma-stripping,
null-never-NaN parse applies to the order payload's numeric fields
(price, quantityOrdered, quantityLeft) and the position payload's
price/avgPrice field; the position payload's quantity and pnl fields
are bare `parseFloat` — no comma stripping, and unparsable values are
stored as `NaN` rather than `null`. -/
theorem claim_C9_numeric_parsing (r : RawOrder) (p : RawPosition) :
    (parseOrderFields r).price ≠ NumVal.nan
    ∧ (parseOrderFields r).quantity ≠ NumVal.nan
    ∧ (parseOrderFields r).quantityLeft ≠ NumVal.nan
    ∧ (∀ str : String, orderNumField (JVal.jstr str)
        = (parseFloatM (stripCommas str)).elim NumVal.null NumVal.val)
    ∧ (mapPositionFields p).avgPrice ≠ NumVal.nan
    ∧ (mapPositionFields p).quantity = jsParseFloat p.quantity
    ∧ (mapPositionFields p).pnl = jsParseFloat p.pnl := by
  refine ⟨orderNumField_ne_nan _, orderNumField_ne_nan _, orderNumField_ne_nan _, ?_,
    orderNumField_ne_nan _, rfl, rfl⟩
  intro str
  cases h : parseFloatM (stripCommas str) <;> simp [orderNumField, h]

/-! ## C6: setting upsert idempotence -/

theorem mapGet_some_mem {K V : Type} [DecidableEq K] (m : List (K × V)) (k : K) (v : V)
    (h : mapGet m k = some v) : (k, v) ∈ m := by
  induction m with
  | nil => simp [mapGet] at h
  | cons q rest ih =>
    obtain ⟨k₀, v₀⟩ := q
    simp only [mapGet] at h
    by_cases h0 : k₀ = k
    · rw [if_pos h0] at h
      injection h with h'
      subst h0; subst h'
      exact List.mem_cons_self _ _
    · rw [if_neg h0] at h
      exact List.mem_cons_of_mem _ (ih h)

theorem mem_mapSet {K V : Type} [DecidableEq K] (m : List (K × V)) (k : K) (v : V) (p : K × V)
    (h : p ∈ mapSet m k v) : p = (k, v) ∨ p ∈ m := by
  induction m with
  | nil =>
    simp only [mapSet, List.mem_singleton] at h
    exact Or.inl h
  | cons q rest ih =>
    obtain ⟨k₀, v₀⟩ := q
    simp only [mapSet] at h
    by_cases h0 : k₀ = k
    · rw [if_pos h0] at h
      rcases List.mem_cons.mp h with h1 | h1
      · exact Or.inl h1
      · exact Or.inr (List.mem_cons_of_mem _ h1)
    · rw [if_neg h0] at h
      rcases List.mem_cons.mp h with h1 | h1
      · exact Or.inr (h1 ▸ List.mem_cons_self _ _)
      · rcases ih h1 with h2 | h2
        · exact Or.inl h2
        · exact Or.inr (List.mem_cons_of_mem _ h2)

theorem length_mapSet_of_get_some {K V : Type} [DecidableEq K] (m : List (K × V)) (k : K)
    (v v0 : V) (h : mapGet m k = some v0) : (mapSet m k v).length = m.length := by
  induction m with
  | nil => simp [mapGet] at h
  | cons q rest ih =>
    obtain ⟨k₀, v₀⟩ := q
    simp only [mapGet] at h
    simp only [mapSet]
    by_cases h0 : k₀ = k
    · rw [if_pos h0]; simp
    · rw [if_neg h0] at h
      rw [if_neg h0]
      simp [ih h]

theorem mem_keys_mapSet {K V : Type} [DecidableEq K] (m : List (K × V)) (k x : K) (v : V)
    (h : x ∈ (mapSet m k v).map Prod.fst) : x ∈ m.map Prod.fst ∨ x = k := by
  simp only [List.mem_map] at h
  obtain ⟨p, hp, hx⟩ := h
  rcases mem_mapSet m k v p hp with h1 | h1
  · right; rw [← hx, h1]
  · left; exact List.mem_map.mpr ⟨p, h1, hx⟩

theorem nodup_keys_mapSet {K V : Type} [DecidableEq K] (m : List (K × V)) (k : K) (v : V)
    (hnd : (m.map Prod.fst).Nodup) : ((mapSet m k v).map Prod.fst).Nodup := by
  induction m with
  | nil => simp [mapSet]
  | cons q rest ih =>
    obtain ⟨k₀, v₀⟩ := q
    simp only [List.map_cons, List.nodup_cons] at hnd
    obtain ⟨hk₀, hrest⟩ := hnd
    simp only [mapSet]
    by_cases h0 : k₀ = k
    · rw [if_pos h0]
      simp only [List.map_cons, List.nodup_cons]
      exact ⟨h0 ▸ hk₀, hrest⟩
    · rw [if_neg h0]
      simp only [List.map_cons, List.nodup_cons]
      refine ⟨?_, ih hrest⟩
      intro hmem
      rcases mem_keys_mapSet rest k k₀ v hmem with h1 | h1
      · exact hk₀ h1
      · exact h0 h1

/-- In a map with distinct keys containing key `k`, exactly one entry
has key `k`. -/
theorem filter_key_length_one {K V : Type} [DecidableEq K] (m : List (K × V)) (k : K)
    (hnd : (m.map Prod.fst).Nodup) (v0 : V) (hget : mapGet m k = some v0) :
    (m.filter (fun p => p.1 = k)).length = 1 := by
  induction m with
  | nil => simp [mapGet] at hget
  | cons q rest ih =>
    obtain ⟨k₀, v₀⟩ := q
    simp only [List.map_cons, List.nodup_cons] at hnd
    obtain ⟨hk₀, hrest⟩ := hnd
    simp only [mapGet] at hget
    by_cases h0 : k₀ = k
    · subst h0
      have hnone : rest.filter (fun p => p.1 = k₀) = [] := by
        rw [List.filter_eq_nil_iff]
        intro p hp
        simp only [decide_eq_true_eq]
        intro hpk
        exact hk₀ (List.mem_map.mpr ⟨p, hp, hpk⟩)
      simp [List.filter_cons, hnone]
    · rw [if_neg h0] at hget
      have : ¬ ((k₀, v₀) : K × V).1 = k := h0
      simp only [List.filter_cons, decide_eq_true_eq]
      rw [if_neg this]
      exact ih hrest hget

/-- Core of the upsert idempotence: writing the same well-typed row
twice at key "global" leaves one row of that type, keyed and counted
once, with unchanged map size after the second write. -/
theorem upsert_twice_common (m0 : List (String × Setting)) (st : Setting)
    (hty : st.type = "global") (hwf : ∀ p ∈ m0, (p.2).type = p.1)
    (hnd : (m0.map Prod.fst).Nodup) :
    ((mapSet (mapSet m0 "global" st) "global" st).filter
        (fun p => (p.2).type = "global")).length = 1
    ∧ mapGet (mapSet (mapSet m0 "global" st) "global" st) "global" = some st
    ∧ (mapSet (mapSet m0 "global" st) "global" st).length
        = (mapSet m0 "global" st).length := by
  have hwf2 : ∀ p ∈ mapSet (mapSet m0 "global" st) "global" st, (p.2).type = p.1 := by
    intro p hp
    rcases mem_mapSet _ _ _ _ hp with h1 | h1
    · rw [h1]; exact hty
    · rcases mem_mapSet _ _ _ _ h1 with h2 | h2
      · rw [h2]; exact hty
      · exact hwf p h2
  have hnd2 : ((mapSet (mapSet m0 "global" st) "global" st).map Prod.fst).Nodup :=
    nodup_keys_mapSet _ _ _ (nodup_keys_mapSet _ _ _ hnd)
  have hget2 : mapGet (mapSet (mapSet m0 "global" st) "global" st) "global" = some st :=
    mapGet_mapSet_self _ _ _
  refine ⟨?_, hget2, length_mapSet_of_get_some _ _ _ st (mapGet_mapSet_self _ _ _)⟩
  have hcongr : (mapSet (mapSet m0 "global" st) "global" st).filter
      (fun p => (p.2).type = "global")
      = (mapSet (mapSet m0 "global" st) "global" st).filter (fun p => p.1 = "global") := by
    refine List.filter_congr ?_
    intro p hp
    rw [hwf2 p hp]
  rw [hcongr]
  exact filter_key_length_one _ _ hnd2 st hget2

/-- **C6**: upserting the same settings payload `X` at type "global"
twice (from any store whose settings map is a well-formed JS `Map`:
each row keyed by its own `type`, keys distinct) leaves exactly one
Setting row of type "global", whose `data` is `X`; the second call adds
no row and keeps the row's id. -/
theorem claim_C6_setting_upsert_idempotent (s : MemStorage) (X : JVal)
    (hwf : ∀ p ∈ s.settingsMap, (p.2).type = p.1)
    (hnd : (s.settingsMap.map Prod.fst).Nodup) :
    ((((s.createOrUpdateSetting "global" X).2.createOrUpdateSetting "global" X).2.settingsMap.filter
        (fun p => (p.2).type = "global")).length = 1)
    ∧ mapGet (((s.createOrUpdateSetting "global" X).2.createOrUpdateSetting "global" X).2.settingsMap)
        "global"
      = some (((s.createOrUpdateSetting "global" X).2.createOrUpdateSetting "global" X).1)
    ∧ (((s.createOrUpdateSetting "global" X).2.createOrUpdateSetting "global" X).1).data = X
    ∧ (((s.createOrUpdateSetting "global" X).2.createOrUpdateSetting "global" X).1).id
        = (s.createOrUpdateSetting "global" X).1.id
    ∧ (((s.createOrUpdateSetting "global" X).2.createOrUpdateSetting "global" X).2.settingsMap.length
        = (s.createOrUpdateSetting "global" X).2.settingsMap.length) := by
  cases hget : mapGet s.settingsMap "global" with
  | none =>
    have e1 : s.createOrUpdateSetting "global" X
        = (⟨s.settingId, "global", X⟩,
           { s with settingsMap := mapSet s.settingsMap "global" ⟨s.settingId, "global", X⟩,
                    settingId := s.settingId + 1 }) := by
      simp only [MemStorage.createOrUpdateSetting, hget]
    have e2 : (s.createOrUpdateSetting "global" X).2.createOrUpdateSetting "global" X
        = (⟨s.settingId, "global", X⟩,
           { s with settingsMap := mapSet (mapSet s.settingsMap "global" ⟨s.settingId, "global", X⟩)
                      "global" ⟨s.settingId, "global", X⟩,
                    settingId := s.settingId + 1 }) := by
      rw [e1]
      simp only [MemStorage.createOrUpdateSetting, mapGet_mapSet_self]
    obtain ⟨hcount, hgot, hlen⟩ :=
      upsert_twice_common s.settingsMap ⟨s.settingId, "global", X⟩ rfl hwf hnd
    rw [e2, e1]
    exact ⟨hcount, hgot, rfl, rfl, hlen⟩
  | some ex =>
    have hexty : ex.type = "global" := hwf _ (mapGet_some_mem _ _ _ hget)
    have e1 : s.createOrUpdateSetting "global" X
        = ({ ex with data := X },
           { s with settingsMap := mapSet s.settingsMap "global" { ex with data := X } }) := by
      simp only [MemStorage.createOrUpdateSetting, hget]
    have e2 : (s.createOrUpdateSetting "global" X).2.createOrUpdateSetting "global" X
        = ({ ex with data := X },
           { s with settingsMap := mapSet (mapSet s.settingsMap "global" { ex with data := X })
                      "global" { ex with data := X } }) := by
      rw [e1]
      simp only [MemStorage.createOrUpdateSetting, mapGet_mapSet_self]
    obtain ⟨hcount, hgot, hlen⟩ :=
      upsert_twice_common s.settingsMap { ex with data := X } hexty hwf hnd
    rw [e2, e1]
    exact ⟨hcount, hgot, rfl, rfl, hlen⟩

/-- Witness for C6: two upserts of the payload `42` on the empty
store. -/
theorem claim_C6_setting_upsert_idempotent_witness :
    ((((MemStorage.empty.createOrUpdateSetting "global" (JVal.jnum 42)).2.createOrUpdateSetting
          "global" (JVal.jnum 42)).2.settingsMap.filter
        (fun p => (p.2).type = "global")).length = 1)
    ∧ mapGet (((MemStorage.empty.createOrUpdateSetting "global"
          (JVal.jnum 42)).2.createOrUpdateSetting "global" (JVal.jnum 42)).2.settingsMap) "global"
      = some (((MemStorage.empty.createOrUpdateSetting "global"
          (JVal.jnum 42)).2.createOrUpdateSetting "global" (JVal.jnum 42)).1)
    ∧ (((MemStorage.empty.createOrUpdateSetting "global"
          (JVal.jnum 42)).2.createOrUpdateSetting "global" (JVal.jnum 42)).1).data = JVal.jnum 42
    ∧ (((MemStorage.empty.createOrUpdateSetting "global"
          (JVal.jnum 42)).2.createOrUpdateSetting "global" (JVal.jnum 42)).1).id
        = (MemStorage.empty.createOrUpdateSetting "global" (JVal.jnum 42)).1.id
    ∧ (((MemStorage.empty.createOrUpdateSetting "global"
          (JVal.jnum 42)).2.createOrUpdateSetting "global" (JVal.jnum 42)).2.settingsMap.length
        = (MemStorage.empty.createOrUpdateSetting "global" (JVal.jnum 42)).2.settingsMap.length) :=
  claim_C6_setting_upsert_idempotent MemStorage.empty (JVal.jnum 42)
    (by intro p hp; simp [MemStorage.empty] at hp) (by simp [MemStorage.empty])

/-- A store with an empty log and a stopped program state. -/
def c5Small : MemStorage :=
  { MemStorage.empty with programStateValue := some ⟨1, false, 0⟩, programStateId := 2 }

/-- Witness for C5 (amended): toggling twice from the stopped state
with an empty log goes running → stopped, appends the two expected
entries, and grows the log by exactly 2. -/
theorem claim_C5_toggle_involution_witness :
    (c5Small.toggleProgramState 1).1.running = !false
    ∧ ((c5Small.toggleProgramState 1).2.toggleProgramState 2).1.running = false
    ∧ (c5Small.toggleProgramState 1).2.logs.getLast?
        = some ⟨c5Small.logId, 1, "Info",
            "Program " ++ (if !false then "started" else "stopped")⟩
    ∧ ((c5Small.toggleProgramState 1).2.toggleProgramState 2).2.logs.getLast?
        = some ⟨c5Small.logId + 1, 2, "Info",
            "Program " ++ (if false then "started" else "stopped")⟩
    ∧ (c5Small.toggleProgramState 1).2.logs.length = min (c5Small.logs.length + 1) 1000
    ∧ ((c5Small.toggleProgramState 1).2.toggleProgramState 2).2.logs.length
        = min (c5Small.logs.length + 2) 1000
    ∧ ((c5Small.toggleProgramState 1).2.toggleProgramState 2).2.logs.length
        = c5Small.logs.length + 2 :=
  have h := claim_C5_toggle_involution c5Small 1 2 ⟨1, false, 0⟩ rfl (by decide)
  ⟨h.1, h.2.1, h.2.2.1, h.2.2.2.1, h.2.2.2.2.1, h.2.2.2.2.2.1,
    h.2.2.2.2.2.2 (by decide)⟩
